import Mathlib

set_option autoImplicit false

/-!
A shallow embedding of remco's resource monitor
(`pkg/template/resource.go`) and proofs about it.

External effects (backend `GetValues` calls, template staging/syncing,
child spawning, reloads, the retry sleep and context cancellation) are
modelled as oracle inputs, and every observable side effect (log lines,
`GetValues` calls, reloads, sleeps, closes) is recorded in an explicit
action trace.
-/

namespace Remco

/-- A key-value pair (memkv `KVPair`). -/
structure KV where
  key : String
  value : String
deriving Repr, DecidableEq

/-- Modelled from the spec: the `memkv.Store` used by `resource.go` is an
external dependency (github.com/HeavyHorst/memkv) whose source is not part
of this repository; §4.1 of the spec describes it as a path-keyed map with
`Set/Get/Exists/Purge/GetAllKVs`.  We represent the map as an association
list whose keys are unique for every store built by `Set` from `Purge`;
`GetAllKVs` returns the entries (the real store returns them sorted by
key; every property proved below is insensitive to the order of entries
within one store because its keys are unique). -/
structure Store where
  kvs : List KV
deriving Repr, DecidableEq

/-- A fresh store: `memkv.New()`, also the result of `Purge`. -/
def Store.empty : Store := ⟨[]⟩

/-- Go `Store.Get`: the value bound to `k`, if any. -/
def Store.get (s : Store) (k : String) : Option String :=
  (s.kvs.find? (fun kv => kv.key == k)).map KV.value

/-- Go `Store.Exists`. -/
def Store.existsKey (s : Store) (k : String) : Bool :=
  (s.get k).isSome

/-- Go `Store.Set`: overwrite the binding for `k` with `v`. -/
def Store.set (s : Store) (k v : String) : Store :=
  ⟨s.kvs.filter (fun kv => kv.key != k) ++ [⟨k, v⟩]⟩

/-- Go `Store.Purge`. -/
def Store.purge (_ : Store) : Store := Store.empty

/-- Go `Store.GetAllKVs`. -/
def Store.getAllKVs (s : Store) : List KV := s.kvs

/-- A store is well formed when no key occurs twice.  Every store reachable
through `Store.set` from `Store.empty` is well formed. -/
def Store.wf (s : Store) : Prop := (s.kvs.map KV.key).Nodup

instance (s : Store) : Decidable s.wf := by
  unfold Store.wf; infer_instance

/-! ### Path handling (Go standard library, used by `setVars`) -/

/-- Modelled from the spec: Go's `path.Clean` (standard library, not part of
this repository).  `setVars` computes store keys with
`path.Join("/", strings.TrimPrefix(key, prefix))`. -/
def pathClean (p : String) : String :=
  if p = "" then "." else
  let rooted := p.startsWith ("/")
  let comps := (p.splitOn ("/")).foldl
    (fun acc c =>
      if c = "" ∨ c = "." then acc
      else if c = ".." then
        (if acc ≠ [] ∧ acc.getLast? ≠ some ("..") then acc.dropLast
         else if rooted then acc else acc ++ [".."])
      else acc ++ [c]) []
  let out := String.intercalate ("/") comps
  if rooted then "/" ++ out else if out = "" then "." else out

/-- Modelled from the spec: Go's `path.Join` on two elements. -/
def pathJoin (a b : String) : String :=
  if a = "" ∧ b = "" then ""
  else if a = "" then pathClean b
  else if b = "" then pathClean a
  else pathClean (a ++ "/" ++ b)

/-- Go's `strings.TrimPrefix(s, p)`. -/
def trimPfx (s p : String) : String :=
  if p.isPrefixOf s then s.drop p.length else s

/-! ### Data model -/

/-- The `Backend` value type.  Its struct declaration
(`pkg/template/backend.go`) is not under `src/`; the fields are the ones
used by `resource.go` together with spec section 3.  The Go struct holds a
pointer to its store, shared between the copy stored in
`Resource.backends` and the copies sent over `processChan`; the functions
below therefore address a backend by its index in the resource's backend
list, which models that aliasing. -/
structure Backend where
  name : String
  /-- Go field `Prefix` (`prefix` is a reserved word in Lean). -/
  pfx : String := ""
  keys : List String := []
  interval : Int := 0
  onetime : Bool := false
  watch : Bool := false
  store : Store := Store.empty
deriving Repr, DecidableEq

instance : Inhabited Backend := ⟨{ name := "" }⟩

/-- The `Renderer` fields used by `NewResource` (the full renderer lives in
another file; only `Src` is inspected by the code under verification). -/
structure Renderer where
  src : String
  dst : String := ""
deriving Repr, DecidableEq

instance : Inhabited Renderer := ⟨{ src := "" }⟩

/-- The `Resource` state touched by the functions under verification: the
backend list (each with its per-backend store), the renderer list, the
merged store and the `Failed` flag. -/
structure Resource where
  backends : List Backend
  sources : List Renderer := []
  store : Store := Store.empty
  failed : Bool := false
deriving Repr, DecidableEq

instance : Inhabited Resource := ⟨{ backends := [] }⟩

/-- The struct `berr.BackendError` from `pkg/backends/error`, with fields
`Backend` and `Message`. -/
structure BackendError where
  backend : String
  message : String
deriving Repr, DecidableEq

/-- An error returned by `process`: either a `berr.BackendError` (from a
failed `setVars`) or a wrapped plain error (from
`createStageFileAndSync`). -/
inductive ProcessError where
  | backendError (e : BackendError)
  | wrapped (message : String)
deriving Repr, DecidableEq

/-- Observable side effects of the monitor, recorded in order. -/
inductive Action where
  | getValues (backend : String)
  | warnCollision (key : String)
  | stageSync
  | reload
  | logReloadError (message : String)
  | logBackendError (backend : String) (message : String)
  | logError (message : String)
  | sleepSeconds (seconds : Nat)
  | spawnChild
  | cancel
  | closeBackend (backend : String)
  | warnInterval (backend : String)
  | processCall (idxs : List Nat)
deriving Repr, DecidableEq

/-- Outcome of a backend's `GetValues` call: either an error or the
returned `map[string]string`, given in some iteration order. -/
abbrev FetchResult := Except String (List (String × String))

/-- Outcome of `createStageFileAndSync`: the accumulated `changed` flag and
an optional error. -/
abbrev RenderResult := Bool × Option String

/-! ### setVars and the merge (resource.go lines 160-191) -/

/-- Lines 173-177 of `resource.go`: purge the backend's store and `Set`
each fetched pair under `path.Join("/", strings.TrimPrefix(key, prefix))`. -/
def buildBackendStore (pfx : String) (result : List (String × String)) : Store :=
  result.foldl (fun s kv => s.set (pathJoin ("/") (trimPfx kv.1 pfx)) kv.2) Store.empty

/-- Lines 180-188 of `resource.go`: purge the merged store and refill it
from every backend's store in declaration order; the second component
collects the keys for which a collision warning is logged (one entry per
`Set` whose key already existed in the merged store). -/
def mergeStep (acc : Store × List String) (kv : KV) : Store × List String :=
  (acc.1.set kv.key kv.value,
    if acc.1.existsKey kv.key then acc.2 ++ [kv.key] else acc.2)

def mergeBackendStore (acc : Store × List String) (b : Backend) : Store × List String :=
  b.store.getAllKVs.foldl mergeStep acc

def mergeStores (backends : List Backend) : Store × List String :=
  backends.foldl mergeBackendStore (Store.empty, [])

/-- Lines 160-191 of `resource.go`, `setVars`, for the backend at index
`i`, with the `GetValues` outcome supplied by the oracle `fetch`.  On a
fetch error the wrapped error is returned before any store is touched;
otherwise the backend's store is rebuilt from the fetch result and the
merged store is rebuilt from the full backend list. -/
def setVars (t : Resource) (i : Nat) (fetch : FetchResult) :
    Resource × Option String × List Action :=
  let b := t.backends.getD i default
  match fetch with
  | .error e => (t, some ("getValues failed: " ++ e), [.getValues b.name])
  | .ok result =>
      let backends' := t.backends.set i { b with store := buildBackendStore b.pfx result }
      let merged := mergeStores backends'
      ({ t with backends := backends', store := merged.1 }, none,
        [.getValues b.name] ++ merged.2.map Action.warnCollision)

/-! ### process (resource.go lines 214-229) -/

/-- The `setVars` loop of `process` (lines 217-224): runs `setVars` for
each listed backend index, stopping at the first error, which is wrapped
into a `berr.BackendError` carrying the offending backend's name. -/
def processVars (t : Resource) (idxs : List Nat) (env : Nat → FetchResult) :
    Resource × Option BackendError × List Action :=
  match idxs with
  | [] => (t, none, [])
  | i :: rest =>
      let r := setVars t i (env i)
      match r.2.1 with
      | some e =>
          (r.1, some ⟨(t.backends.getD i default).name, "setVars failed: " ++ e⟩, r.2.2)
      | none =>
          let r' := processVars r.1 rest env
          (r'.1, r'.2.1, r.2.2 ++ r'.2.2)

/-- Lines 214-229 of `resource.go`, `process`: run `setVars` for every
listed backend, then `createStageFileAndSync` (whose outcome is supplied
by the oracle `render`; the `stageSync` trace entry records that it was
invoked).  Returns the new state, the `changed` flag, the error if any,
and the trace. -/
def process (t : Resource) (idxs : List Nat) (env : Nat → FetchResult)
    (render : RenderResult) : Resource × Bool × Option ProcessError × List Action :=
  let r := processVars t idxs env
  match r.2.1 with
  | some be => (r.1, false, some (.backendError be), .processCall idxs :: r.2.2)
  | none =>
      match render with
      | (changed, some e) =>
          (r.1, changed, some (.wrapped ("createStageFileAndSync failed: " ++ e)),
            .processCall idxs :: (r.2.2 ++ [.stageSync]))
      | (changed, none) =>
          (r.1, changed, none, .processCall idxs :: (r.2.2 ++ [.stageSync]))

/-! ### Construction (resource.go lines 82-142) -/

/-- The message of `ErrEmptySrc`. -/
def ErrEmptySrc : String := "empty src template"

/-- Lines 129-137 of `resource.go`: initialise the backend's private store
and upgrade a non-positive interval to 60 (with a warning) unless the
backend is onetime or watched. -/
def upgradeBackend (b : Backend) : Backend × List Action :=
  let b' := { b with store := Store.empty }
  if b'.interval ≤ 0 ∧ ¬b'.onetime ∧ ¬b'.watch then
    ({ b' with interval := 60 }, [.warnInterval b'.name])
  else (b', [])

/-- Lines 104-142 of `resource.go`, `NewResource`. -/
def NewResource (backends : List Backend) (sources : List Renderer) :
    Except String (Resource × List Action) :=
  if backends.isEmpty then .error ("a valid StoreClient is required")
  else if sources.any (fun v => v.src == "") then .error ErrEmptySrc
  else
    let ups := backends.map upgradeBackend
    .ok ({ backends := ups.map Prod.fst, sources := sources,
           store := Store.empty, failed := false },
         (ups.map Prod.snd).flatten)

/-- Lines 82-101 of `resource.go`, `NewResourceFromResourceConfig`, with
the outcome of `Connectors.ConnectAll` supplied by the oracle `connect`.
On a `NewResource` failure every connected backend is closed (recorded as
`closeBackend` trace entries) before the error is returned. -/
def NewResourceFromResourceConfig (connect : Except String (List Backend))
    (sources : List Renderer) : Except String Resource × List Action :=
  match connect with
  | .error e => (.error ("connectAll failed: " ++ e), [])
  | .ok backendList =>
      match NewResource backendList sources with
      | .error e => (.error e, backendList.map (fun v => Action.closeBackend v.name))
      | .ok r => (.ok r.1, r.2)

/-! ### Monitor (resource.go lines 234-362) -/

/-- Modelled from the spec: Go's `rand.Int63n(n)` returns a uniformly
distributed value in `[0, n)`; we model the draw as the reduction of an
arbitrary PRNG output modulo `n`. -/
def int63n (n : Nat) (draw : Nat) : Nat := draw % n

/-- Oracle for one iteration of the initial-convergence retry loop: the
`GetValues` outcomes, the render outcome, the PRNG draw feeding
`rand.Int63n(30)`, and whether the context was cancelled by the time the
retry goroutine finished sleeping. -/
structure Attempt where
  env : Nat → FetchResult
  render : RenderResult := (false, none)
  draw : Nat := 0
  cancelledDuringSleep : Bool := false

/-- Lines 257-265 and 336-341 of `resource.go`: a `BackendError` is logged
with the backend field, any other error with the plain logger. -/
def logProcessError (e : ProcessError) : Action :=
  match e with
  | .backendError be => .logBackendError be.backend be.message
  | .wrapped m => .logError m

/-- Lines 250-281 of `resource.go`: the initial-convergence retry loop.
Each iteration runs `process` over ALL backends.  On failure the error is
logged, the loop sleeps `rand.Int63n(30)` seconds and, unless the context
was cancelled during the sleep, retries; a cancellation during the sleep
makes `Monitor` return (second component `none`).  On success the loop
exits with the `changed` flag (second component `some changed`).  An
exhausted script is also reported as `none` (the loop is still running;
retries are unbounded). -/
def retryLoop (t : Resource) (attempts : List Attempt) :
    Resource × Option Bool × List Action :=
  match attempts with
  | [] => (t, none, [])
  | a :: rest =>
      let r := process t (List.range t.backends.length) a.env a.render
      match r.2.2.1 with
      | none => (r.1, some r.2.1, r.2.2.2)
      | some e =>
          let seg := r.2.2.2 ++ [logProcessError e, .sleepSeconds (int63n 30 a.draw)]
          if a.cancelledDuringSleep then (r.1, none, seg)
          else
            let r' := retryLoop r.1 rest
            (r'.1, r'.2.1, seg ++ r'.2.2)

/-- Oracle for one `processChan` event of the main select loop: the index
of the backend received on the channel, the `GetValues` and render
outcomes for the resulting `process` call, and the outcome of
`exec.Reload()` should it be invoked. -/
structure Event where
  backendIdx : Nat
  env : Nat → FetchResult
  render : RenderResult := (false, none)
  reloadErr : Option String := none

/-- Lines 333-346 of `resource.go`: the `processChan` case of the main
select loop.  `process` runs over just the received backend; an error is
logged; otherwise, if anything changed, `exec.Reload()` is invoked and a
reload failure is merely logged. -/
def handleEvent (t : Resource) (e : Event) : Resource × List Action :=
  let r := process t [e.backendIdx] e.env e.render
  match r.2.2.1 with
  | some pe => (r.1, r.2.2.2 ++ [logProcessError pe])
  | none =>
      if r.2.1 then
        (r.1, r.2.2.2 ++ [Action.reload] ++
          (match e.reloadErr with
           | some m => [.logReloadError m]
           | none => []))
      else (r.1, r.2.2.2)

/-- The main select loop of `Monitor` restricted to `processChan` events,
which it handles one at a time in arrival order (the loop is
single-threaded). -/
def eventLoop (t : Resource) (events : List Event) : Resource × List Action :=
  match events with
  | [] => (t, [])
  | e :: rest =>
      let r := handleEvent t e
      let r' := eventLoop r.1 rest
      (r'.1, r.2 ++ r'.2)

/-- Oracle script for a whole `Monitor` run: the retry-loop attempts, the
outcome of `exec.SpawnChild`, and the `processChan` events of the steady
state. -/
structure MonitorScript where
  attempts : List Attempt
  spawnErr : Option String := none
  events : List Event := []

/-- Lines 234-362 of `resource.go`, `Monitor`, as a deterministic function
of the oracle script: reset `Failed`, run the retry loop (returning if it
was cancelled), spawn the child -- on a spawn failure log the error, set
`Failed` and cancel the derived context, after which the select loop finds
it cancelled and shuts down without handling any event -- and otherwise
handle the steady-state events in order. -/
def monitor (t : Resource) (script : MonitorScript) : Resource × List Action :=
  let t0 := { t with failed := false }
  let r := retryLoop t0 script.attempts
  match r.2.1 with
  | none => (r.1, r.2.2)
  | some _ =>
      match script.spawnErr with
      | some e => ({ r.1 with failed := true }, r.2.2 ++ [.spawnChild, .logError e, .cancel])
      | none =>
          let r' := eventLoop r.1 script.events
          (r'.1, r.2.2 ++ [Action.spawnChild] ++ r'.2)

/-! ### Specification-side characterisations

These definitions follow the SPEC's words (declaration-order precedence,
union of per-backend stores) and are compared against the merge
implemented by `resource.go`. -/

/-- Plain association-list lookup, the reference semantics of a store. -/
def lookupKV (l : List KV) (k : String) : Option String :=
  (l.find? (fun kv => kv.key == k)).map KV.value

/-- From the spec's words: after the merge, key `k` holds the value from
the LAST backend in declaration order whose store contains `k` (later
backends override earlier ones). -/
def lastBackendValue (backends : List Backend) (k : String) : Option String :=
  backends.foldl (fun acc b => (b.store.get k).or acc) none

/-- Number of backends whose store contains `k`. -/
def countContaining (backends : List Backend) (k : String) : Nat :=
  backends.countP (fun b => b.store.existsKey k)

/-- Whether a fetch outcome is an error. -/
def fetchFailed (f : FetchResult) : Bool :=
  match f with
  | .error _ => true
  | .ok _ => false

/-- Whether an attempt makes `process` over the given backend indices
fail: some backend's fetch fails, or the render step fails. -/
def attemptFails (idxs : List Nat) (a : Attempt) : Bool :=
  idxs.any (fun i => fetchFailed (a.env i)) || a.render.2.isSome

/-- The backend at index `j` of the resource has a well-formed
(duplicate-free) store. -/
def wfAt (t : Resource) (j : Nat) : Prop := (t.backends.getD j default).store.wf

/-! ### Lemmas about the store -/

@[simp] theorem Store.get_empty (k : String) : Store.empty.get k = none := rfl

theorem find?_filter_ne (kvs : List KV) (k k' : String) (h : k' ≠ k) :
    List.find? (fun kv => kv.key == k') (kvs.filter (fun kv => kv.key != k)) =
      List.find? (fun kv => kv.key == k') kvs := by
  induction kvs with
  | nil => rfl
  | cons kv rest ih =>
    by_cases hk : kv.key = k
    · have h1 : (kv.key != k) = false := by simp [hk]
      have h2 : (kv.key == k') = false := by
        simp only [hk, beq_eq_false_iff_ne, ne_eq]
        exact Ne.symm h
      simp [List.filter_cons, h1, List.find?_cons, h2, ih]
    · have h1 : (kv.key != k) = true := by simpa [bne_iff_ne] using hk
      by_cases hp : kv.key = k'
      · simp only [List.filter_cons, h1, cond_true]
        simp [List.find?_cons, hp]
      · have hp' : (kv.key == k') = false := by simp [hp]
        simp only [List.filter_cons, h1, cond_true]
        simp [List.find?_cons, hp', ih]

theorem Store.get_set (s : Store) (k v k' : String) :
    (s.set k v).get k' = if k' = k then some v else s.get k' := by
  rcases s with ⟨kvs⟩
  simp only [Store.set, Store.get, List.find?_append]
  by_cases h : k' = k
  · subst h
    have h1 : List.find? (fun kv => kv.key == k') (kvs.filter (fun kv => kv.key != k')) = none := by
      rw [List.find?_eq_none]
      intro x hx
      have hne := List.of_mem_filter hx
      simp only [bne_iff_ne, ne_eq] at hne
      simp [hne]
    simp [h1, List.find?_cons]
  · have h2 : ((⟨k, v⟩ : KV).key == k') = false := by
      simp only [beq_eq_false_iff_ne, ne_eq]
      exact Ne.symm h
    rw [find?_filter_ne kvs k k' h]
    simp [List.find?_cons, h2, h]

theorem Store.existsKey_set (s : Store) (k v k' : String) :
    (s.set k v).existsKey k' = (decide (k' = k) || s.existsKey k') := by
  simp only [Store.existsKey, Store.get_set]
  by_cases h : k' = k <;> simp [h]

theorem Store.wf_empty : Store.empty.wf := by
  simp [Store.wf, Store.empty]

theorem Store.wf_set (s : Store) (k v : String) (h : s.wf) : (s.set k v).wf := by
  rcases s with ⟨kvs⟩
  simp only [Store.wf, Store.set, List.map_append, List.map_cons, List.map_nil] at *
  rw [List.nodup_append]
  refine ⟨List.Nodup.sublist (List.Sublist.map KV.key (List.filter_sublist kvs)) h,
    List.nodup_singleton _, ?_⟩
  rw [List.disjoint_singleton]
  intro hk
  simp only [List.mem_map] at hk
  obtain ⟨kv, hkv, hkey⟩ := hk
  have hne := List.of_mem_filter hkv
  simp only [bne_iff_ne, ne_eq] at hne
  exact hne hkey

/-! ### Lemmas about the merge -/

theorem Store.get_eq_lookupKV (s : Store) (k : String) : s.get k = lookupKV s.kvs k := rfl

theorem foldl_mergeStep_fst (l : List KV) (acc : Store × List String) :
    (l.foldl mergeStep acc).1 = l.foldl (fun s kv => s.set kv.key kv.value) acc.1 := by
  induction l generalizing acc with
  | nil => rfl
  | cons kv rest ih => simpa [mergeStep] using ih (mergeStep acc kv)

theorem foldl_set_get (l : List KV) (hnd : (l.map KV.key).Nodup) (s₀ : Store) (k : String) :
    (l.foldl (fun s kv => s.set kv.key kv.value) s₀).get k = (lookupKV l k).or (s₀.get k) := by
  induction l generalizing s₀ with
  | nil => simp [lookupKV]
  | cons kv rest ih =>
    simp only [List.map_cons, List.nodup_cons] at hnd
    rw [List.foldl_cons, ih hnd.2, Store.get_set]
    by_cases hk : k = kv.key
    · subst hk
      have hfind : List.find? (fun kv' => kv'.key == kv.key) rest = none := by
        rw [List.find?_eq_none]
        intro x hx
        simp only [beq_iff_eq]
        intro hxk
        exact hnd.1 (hxk ▸ List.mem_map_of_mem KV.key hx)
      have hnone : lookupKV rest kv.key = none := by simp [lookupKV, hfind]
      have hcons : lookupKV (kv :: rest) kv.key = some kv.value := by
        simp [lookupKV, List.find?_cons]
      simp [hnone, hcons]
    · have hcons : lookupKV (kv :: rest) k = lookupKV rest k := by
        have : (kv.key == k) = false := by
          simp only [beq_eq_false_iff_ne, ne_eq]
          exact fun h => hk h.symm
        simp [lookupKV, List.find?_cons, this]
      simp [hcons, hk]

theorem mergeBackendStore_fst_get (acc : Store × List String) (b : Backend)
    (hwf : b.store.wf) (k : String) :
    (mergeBackendStore acc b).1.get k = (b.store.get k).or (acc.1.get k) := by
  rw [mergeBackendStore, foldl_mergeStep_fst]
  simp only [Store.getAllKVs]
  rw [foldl_set_get _ hwf]
  rfl

theorem foldl_mergeBackendStore_fst_get (backends : List Backend)
    (hwf : ∀ b ∈ backends, b.store.wf) (acc : Store × List String) (k : String) :
    ((backends.foldl mergeBackendStore acc).1).get k
      = backends.foldl (fun o b => (b.store.get k).or o) (acc.1.get k) := by
  induction backends generalizing acc with
  | nil => rfl
  | cons b rest ih =>
    rw [List.foldl_cons, List.foldl_cons,
      ih (fun x hx => hwf x (List.mem_cons_of_mem b hx)) (mergeBackendStore acc b),
      mergeBackendStore_fst_get acc b (hwf b (List.mem_cons_self b rest)) k]

theorem mergeStores_fst_get (backends : List Backend)
    (hwf : ∀ b ∈ backends, b.store.wf) (k : String) :
    (mergeStores backends).1.get k = lastBackendValue backends k := by
  rw [mergeStores, foldl_mergeBackendStore_fst_get backends hwf, lastBackendValue]
  rfl

theorem foldl_or_isSome (backends : List Backend) (o : Option String) (k : String) :
    (backends.foldl (fun acc b => (b.store.get k).or acc) o).isSome
      = (backends.any (fun b => b.store.existsKey k) || o.isSome) := by
  induction backends generalizing o with
  | nil => simp
  | cons b rest ih =>
    rw [List.foldl_cons, ih, List.any_cons]
    simp only [Store.existsKey, Option.isSome_or]
    cases (b.store.get k).isSome <;> cases o.isSome <;>
      cases rest.any (fun b => (b.store.get k).isSome) <;> rfl

theorem mergeStores_fst_existsKey (backends : List Backend)
    (hwf : ∀ b ∈ backends, b.store.wf) (k : String) :
    (mergeStores backends).1.existsKey k = backends.any (fun b => b.store.existsKey k) := by
  rw [Store.existsKey, mergeStores_fst_get backends hwf, lastBackendValue, foldl_or_isSome]
  simp

theorem foldl_mergeStep_snd_count (l : List KV) (hnd : (l.map KV.key).Nodup)
    (acc : Store × List String) (k : String) :
    (l.foldl mergeStep acc).2.count k
      = acc.2.count k + (if (lookupKV l k).isSome ∧ acc.1.existsKey k then 1 else 0) := by
  induction l generalizing acc with
  | nil => simp [lookupKV]
  | cons kv rest ih =>
    simp only [List.map_cons, List.nodup_cons] at hnd
    rw [List.foldl_cons, ih hnd.2]
    by_cases hk : k = kv.key
    · subst hk
      have hfind : List.find? (fun kv' => kv'.key == kv.key) rest = none := by
        rw [List.find?_eq_none]
        intro x hx
        simp only [beq_iff_eq]
        intro hxk
        exact hnd.1 (hxk ▸ List.mem_map_of_mem KV.key hx)
      have hnone : lookupKV rest kv.key = none := by simp [lookupKV, hfind]
      have hcons : (lookupKV (kv :: rest) kv.key).isSome = true := by
        simp [lookupKV, List.find?_cons]
      simp only [mergeStep, hnone, Option.isSome_none, Bool.false_eq_true, false_and,
        if_false, hcons, true_and, Nat.add_zero]
      by_cases he : acc.1.existsKey kv.key
      · simp [he, List.count_append, List.count_singleton]
      · simp [he]
    · have hcons : lookupKV (kv :: rest) k = lookupKV rest k := by
        have hne : (kv.key == k) = false := by
          simp only [beq_eq_false_iff_ne, ne_eq]
          exact fun h => hk h.symm
        simp [lookupKV, List.find?_cons, hne]
      have hex : (acc.1.set kv.key kv.value).existsKey k = acc.1.existsKey k := by
        rw [Store.existsKey_set]
        simp [hk]
      have hcount : (if acc.1.existsKey kv.key then acc.2 ++ [kv.key] else acc.2).count k
          = acc.2.count k := by
        by_cases he : acc.1.existsKey kv.key
        · have : (kv.key == k) = false := by
            simp only [beq_eq_false_iff_ne, ne_eq]
            exact fun h => hk h.symm
          simp [he, List.count_append, List.count_singleton, this]
        · simp [he]
      simp only [mergeStep, hcons, hex, hcount]

theorem mergeBackendStore_snd_count (acc : Store × List String) (b : Backend)
    (hwf : b.store.wf) (k : String) :
    (mergeBackendStore acc b).2.count k
      = acc.2.count k + (if b.store.existsKey k ∧ acc.1.existsKey k then 1 else 0) := by
  rw [mergeBackendStore]
  simp only [Store.getAllKVs]
  rw [foldl_mergeStep_snd_count _ hwf]
  rfl

theorem mergeBackendStore_fst_existsKey (acc : Store × List String) (b : Backend)
    (hwf : b.store.wf) (k : String) :
    (mergeBackendStore acc b).1.existsKey k
      = (b.store.existsKey k || acc.1.existsKey k) := by
  simp only [Store.existsKey, mergeBackendStore_fst_get acc b hwf k, Option.isSome_or]

theorem foldl_mergeBackendStore_snd_count (backends : List Backend)
    (hwf : ∀ b ∈ backends, b.store.wf) (acc : Store × List String) (k : String) :
    ((backends.foldl mergeBackendStore acc).2).count k
      = acc.2.count k +
        (if acc.1.existsKey k then countContaining backends k
         else countContaining backends k - 1) := by
  induction backends generalizing acc with
  | nil => simp [countContaining]
  | cons b rest ih =>
    have hwfb := hwf b (List.mem_cons_self b rest)
    have hwfr := fun x hx => hwf x (List.mem_cons_of_mem b hx)
    rw [List.foldl_cons, ih hwfr (mergeBackendStore acc b),
      mergeBackendStore_snd_count acc b hwfb k,
      mergeBackendStore_fst_existsKey acc b hwfb k]
    have hcc : countContaining (b :: rest) k
        = countContaining rest k + (if b.store.existsKey k then 1 else 0) := by
      simp [countContaining, List.countP_cons]
    cases he : acc.1.existsKey k <;> cases hb : b.store.existsKey k <;>
      (simp [hcc, he, hb]; try omega)

theorem mergeStores_snd_count (backends : List Backend)
    (hwf : ∀ b ∈ backends, b.store.wf) (k : String) :
    (mergeStores backends).2.count k = countContaining backends k - 1 := by
  rw [mergeStores, foldl_mergeBackendStore_snd_count backends hwf _ k]
  simp [Store.existsKey]

/-! ### Lemmas about setVars and processVars -/

theorem buildBackendStore_aux_wf (pfx : String) (result : List (String × String))
    (s₀ : Store) (h : s₀.wf) :
    (result.foldl (fun s kv => s.set (pathJoin ("/") (trimPfx kv.1 pfx)) kv.2) s₀).wf := by
  induction result generalizing s₀ with
  | nil => exact h
  | cons x rest ih => exact ih _ (Store.wf_set _ _ _ h)

theorem buildBackendStore_wf (pfx : String) (result : List (String × String)) :
    (buildBackendStore pfx result).wf :=
  buildBackendStore_aux_wf pfx result Store.empty Store.wf_empty

theorem setVars_error (t : Resource) (i : Nat) (e : String) :
    setVars t i (.error e)
      = (t, some ("getValues failed: " ++ e),
         [.getValues (t.backends.getD i default).name]) := rfl

theorem setVars_ok (t : Resource) (i : Nat) (result : List (String × String)) :
    setVars t i (.ok result)
      = (let b := t.backends.getD i default
         let backends' := t.backends.set i { b with store := buildBackendStore b.pfx result }
         ({ t with backends := backends', store := (mergeStores backends').1 }, none,
          [.getValues b.name] ++ (mergeStores backends').2.map Action.warnCollision)) := rfl

theorem setVars_backends_length (t : Resource) (i : Nat) (f : FetchResult) :
    (setVars t i f).1.backends.length = t.backends.length := by
  cases f with
  | error e => rfl
  | ok result => simp [setVars_ok]

theorem setVars_backends_getElem?_ne (t : Resource) (i : Nat) (f : FetchResult)
    (j : Nat) (hij : j ≠ i) :
    ((setVars t i f).1.backends)[j]? = t.backends[j]? := by
  cases f with
  | error e => rfl
  | ok result =>
    simp only [setVars_ok]
    rw [List.getElem?_set, if_neg (fun h => hij h.symm)]

theorem setVars_wfAt (t : Resource) (i : Nat) (f : FetchResult) (j : Nat) (h : wfAt t j) :
    wfAt (setVars t i f).1 j := by
  cases f with
  | error e => exact h
  | ok result =>
    rw [wfAt, List.getD_eq_getElem?_getD] at h ⊢
    simp only [setVars_ok]
    rw [List.getElem?_set]
    by_cases hij : i = j
    · subst hij
      by_cases hlen : i < t.backends.length
      · simp only [if_pos rfl, if_pos hlen, Option.getD_some]
        exact buildBackendStore_wf _ _
      · simp only [if_pos rfl, if_neg hlen, Option.getD_none]
        exact Store.wf_empty
    · rw [if_neg hij]
      exact h

theorem setVars_ok_wfAt_self (t : Resource) (i : Nat) (result : List (String × String)) :
    wfAt (setVars t i (.ok result)).1 i := by
  rw [wfAt, List.getD_eq_getElem?_getD]
  simp only [setVars_ok]
  rw [List.getElem?_set]
  by_cases hlen : i < t.backends.length
  · simp only [if_pos rfl, if_pos hlen, Option.getD_some]
    exact buildBackendStore_wf _ _
  · simp only [if_pos rfl, if_neg hlen, Option.getD_none]
    exact Store.wf_empty

theorem processVars_nil (t : Resource) (env : Nat → FetchResult) :
    processVars t [] env = (t, none, []) := rfl

theorem processVars_cons_error (t : Resource) (i : Nat) (rest : List Nat)
    (env : Nat → FetchResult) (e : String) (hf : env i = .error e) :
    processVars t (i :: rest) env
      = (t, some ⟨(t.backends.getD i default).name,
                  "setVars failed: " ++ ("getValues failed: " ++ e)⟩,
         [.getValues (t.backends.getD i default).name]) := by
  simp [processVars, hf, setVars_error]

theorem processVars_cons_ok (t : Resource) (i : Nat) (rest : List Nat)
    (env : Nat → FetchResult) (result : List (String × String)) (hf : env i = .ok result) :
    processVars t (i :: rest) env
      = ((processVars (setVars t i (.ok result)).1 rest env).1,
         (processVars (setVars t i (.ok result)).1 rest env).2.1,
         (setVars t i (.ok result)).2.2
           ++ (processVars (setVars t i (.ok result)).1 rest env).2.2) := by
  have h2 : (setVars t i (.ok result)).2.1 = none := by simp [setVars_ok]
  simp only [processVars, hf, h2]

theorem processVars_backends_length (t : Resource) (idxs : List Nat)
    (env : Nat → FetchResult) :
    (processVars t idxs env).1.backends.length = t.backends.length := by
  induction idxs generalizing t with
  | nil => rfl
  | cons i rest ih =>
    cases hf : env i with
    | error e => rw [processVars_cons_error t i rest env e hf]
    | ok result =>
      rw [processVars_cons_ok t i rest env result hf]
      exact (ih _).trans (setVars_backends_length t i _)

theorem processVars_wfAt (t : Resource) (idxs : List Nat) (env : Nat → FetchResult)
    (j : Nat) (h : wfAt t j) : wfAt (processVars t idxs env).1 j := by
  induction idxs generalizing t with
  | nil => exact h
  | cons i rest ih =>
    cases hf : env i with
    | error e =>
      rw [processVars_cons_error t i rest env e hf]
      exact h
    | ok result =>
      rw [processVars_cons_ok t i rest env result hf]
      exact ih _ (setVars_wfAt t i _ j h)

theorem processVars_wfAt_mem (t : Resource) (idxs : List Nat) (env : Nat → FetchResult)
    (j : Nat) (hj : j ∈ idxs) (h : (processVars t idxs env).2.1 = none) :
    wfAt (processVars t idxs env).1 j := by
  induction idxs generalizing t with
  | nil => cases hj
  | cons i rest ih =>
    cases hf : env i with
    | error e =>
      rw [processVars_cons_error t i rest env e hf] at h
      cases h
    | ok result =>
      rw [processVars_cons_ok t i rest env result hf] at h ⊢
      rcases List.mem_cons.mp hj with rfl | hjr
      · exact processVars_wfAt _ rest env j (setVars_ok_wfAt_self t j result)
      · exact ih _ hjr h

theorem processVars_none_store_trace (t : Resource) (idxs : List Nat)
    (env : Nat → FetchResult) (hne : idxs ≠ [])
    (h : (processVars t idxs env).2.1 = none) :
    (processVars t idxs env).1.store
        = (mergeStores (processVars t idxs env).1.backends).1
    ∧ ∃ tr₀ nm, (processVars t idxs env).2.2
        = tr₀ ++ Action.getValues nm ::
            ((mergeStores (processVars t idxs env).1.backends).2.map Action.warnCollision) := by
  induction idxs generalizing t with
  | nil => exact absurd rfl hne
  | cons i rest ih =>
    cases hf : env i with
    | error e =>
      rw [processVars_cons_error t i rest env e hf] at h
      cases h
    | ok result =>
      rw [processVars_cons_ok t i rest env result hf] at h ⊢
      by_cases hrest : rest = []
      · subst hrest
        rw [processVars_nil]
        constructor
        · rw [setVars_ok]
        · refine ⟨[], (t.backends.getD i default).name, ?_⟩
          rw [setVars_ok]
          simp
      · obtain ⟨hstore, tr₀, nm, htr⟩ := ih _ hrest h
        refine ⟨hstore, (setVars t i (.ok result)).2.2 ++ tr₀, nm, ?_⟩
        rw [htr, List.append_assoc]

/-! ### Lemmas about process -/

theorem process_eq_of_processVars_some (t : Resource) (idxs : List Nat)
    (env : Nat → FetchResult) (render : RenderResult) (be : BackendError)
    (h : (processVars t idxs env).2.1 = some be) :
    process t idxs env render
      = ((processVars t idxs env).1, false, some (.backendError be),
         Action.processCall idxs :: (processVars t idxs env).2.2) := by
  simp [process, h]

theorem process_eq_of_processVars_none (t : Resource) (idxs : List Nat)
    (env : Nat → FetchResult) (render : RenderResult)
    (h : (processVars t idxs env).2.1 = none) :
    process t idxs env render
      = ((processVars t idxs env).1, render.1,
         Option.map (fun e => ProcessError.wrapped ("createStageFileAndSync failed: " ++ e))
           render.2,
         Action.processCall idxs :: ((processVars t idxs env).2.2 ++ [Action.stageSync])) := by
  obtain ⟨changed, err⟩ := render
  cases err <;> simp [process, h]

theorem process_fst_eq (t : Resource) (idxs : List Nat) (env : Nat → FetchResult)
    (render : RenderResult) :
    (process t idxs env render).1 = (processVars t idxs env).1 := by
  cases h : (processVars t idxs env).2.1 with
  | none => rw [process_eq_of_processVars_none t idxs env render h]
  | some be => rw [process_eq_of_processVars_some t idxs env render be h]

theorem process_err_none_iff (t : Resource) (idxs : List Nat) (env : Nat → FetchResult)
    (render : RenderResult) :
    (process t idxs env render).2.2.1 = none
      ↔ ((processVars t idxs env).2.1 = none ∧ render.2 = none) := by
  cases h : (processVars t idxs env).2.1 with
  | none =>
    rw [process_eq_of_processVars_none t idxs env render h]
    cases hr : render.2 <;> simp [hr]
  | some be =>
    rw [process_eq_of_processVars_some t idxs env render be h]
    simp

theorem processVars_all_wf (t : Resource) (env : Nat → FetchResult)
    (h : (processVars t (List.range t.backends.length) env).2.1 = none) :
    ∀ b ∈ (processVars t (List.range t.backends.length) env).1.backends, b.store.wf := by
  intro b hb
  obtain ⟨n, hget⟩ := List.mem_iff_get.mp hb
  have hlen := processVars_backends_length t (List.range t.backends.length) env
  have hjlt : (n : Nat) < t.backends.length := by
    have hn := n.isLt
    omega
  have hj : (n : Nat) ∈ List.range t.backends.length := List.mem_range.mpr hjlt
  have hwfat := processVars_wfAt_mem t (List.range t.backends.length) env n hj h
  rw [wfAt, List.getD_eq_getElem?_getD, List.getElem?_eq_getElem n.isLt,
    Option.getD_some] at hwfat
  rw [List.get_eq_getElem] at hget
  rw [hget] at hwfat
  exact hwfat

/-! ### The claims -/

/-- C1: After any successful call to `process` over the full backend
list, the merged store contains exactly the union of the per-backend
stores: a key exists in the merged store iff it is present in some
backend's store, each key maps to the value from the last backend in
declaration order whose store contains it, and the merge logs one
collision warning per key for each later backend that sets an
already-present key (that is, one less than the number of backends
containing it), those warnings appearing in the call's trace. -/
theorem process_full_list_merged_store_union (t t' : Resource)
    (env : Nat → FetchResult) (render : RenderResult) (c : Bool) (tr : List Action)
    (hne : t.backends ≠ [])
    (h : process t (List.range t.backends.length) env render = (t', c, none, tr)) :
    (∀ k, t'.store.get k = lastBackendValue t'.backends k)
    ∧ (∀ k, t'.store.existsKey k = t'.backends.any (fun b => b.store.existsKey k))
    ∧ (∀ k, (mergeStores t'.backends).2.count k = countContaining t'.backends k - 1)
    ∧ (∃ tr₀, tr = tr₀ ++ ((mergeStores t'.backends).2.map Action.warnCollision)
          ++ [Action.stageSync]) := by
  have hpv : (processVars t (List.range t.backends.length) env).2.1 = none := by
    cases hq : (processVars t (List.range t.backends.length) env).2.1 with
    | none => rfl
    | some be =>
      rw [process_eq_of_processVars_some t _ env render be hq] at h
      have hcontra := congrArg (fun x => x.2.2.1) h
      simp at hcontra
  rw [process_eq_of_processVars_none t (List.range t.backends.length) env render hpv] at h
  have ht' : (processVars t (List.range t.backends.length) env).1 = t' :=
    congrArg (fun x => x.1) h
  have htr : Action.processCall (List.range t.backends.length)
      :: ((processVars t (List.range t.backends.length) env).2.2 ++ [Action.stageSync])
      = tr := congrArg (fun x => x.2.2.2) h
  have hlen : 0 < t.backends.length := List.length_pos.mpr hne
  have hrne : List.range t.backends.length ≠ [] := by
    simp only [ne_eq, List.range_eq_nil]
    omega
  obtain ⟨hstore, tr₀, nm, hpvtr⟩ := processVars_none_store_trace t _ env hrne hpv
  have hwf := processVars_all_wf t env hpv
  subst ht'
  subst htr
  refine ⟨?_, ?_, ?_, ?_⟩
  · intro k
    rw [hstore, mergeStores_fst_get _ hwf k]
  · intro k
    rw [hstore]
    exact mergeStores_fst_existsKey _ hwf k
  · intro k
    exact mergeStores_snd_count _ hwf k
  · refine ⟨Action.processCall (List.range t.backends.length)
      :: (tr₀ ++ [Action.getValues nm]), ?_⟩
    rw [hpvtr]
    simp

/-- Witness for the C1 theorem at a concrete two-backend resource and the
key "/x". -/
theorem process_full_list_merged_store_union_witness :
    ({ backends := [{ name := "a" }, { name := "b" }] } : Resource).store.get ("/x")
      = lastBackendValue
          ({ backends := [{ name := "a" }, { name := "b" }] } : Resource).backends ("/x")
    ∧ (mergeStores
          ({ backends := [{ name := "a" }, { name := "b" }] } : Resource).backends).2.count ("/x")
      = countContaining
          ({ backends := [{ name := "a" }, { name := "b" }] } : Resource).backends ("/x") - 1 :=
  ⟨(process_full_list_merged_store_union
      { backends := [{ name := "a" }, { name := "b" }] }
      { backends := [{ name := "a" }, { name := "b" }] }
      (fun _ => .ok []) (false, none) false
      [Action.processCall [0, 1], Action.getValues ("a"), Action.getValues ("b"),
       Action.stageSync]
      (by decide) (by rfl)).1 ("/x"),
   (process_full_list_merged_store_union
      { backends := [{ name := "a" }, { name := "b" }] }
      { backends := [{ name := "a" }, { name := "b" }] }
      (fun _ => .ok []) (false, none) false
      [Action.processCall [0, 1], Action.getValues ("a"), Action.getValues ("b"),
       Action.stageSync]
      (by decide) (by rfl)).2.2.1 ("/x")⟩

/-- C9: If `GetValues` fails for backend `i`, `setVars` returns the
wrapped error and leaves the backend list (hence every per-backend store)
and the merged store exactly as they were before the call: the purge of
the backend's store and the rebuild of the merged store happen only after
a successful fetch. -/
theorem setVars_fetch_error_state_unchanged (t : Resource) (i : Nat) (e : String) :
    (setVars t i (.error e)).1.backends = t.backends
    ∧ (setVars t i (.error e)).1.store = t.store
    ∧ (setVars t i (.error e)).1 = t
    ∧ (setVars t i (.error e)).2.1 = some ("getValues failed: " ++ e) :=
  ⟨rfl, rfl, rfl, rfl⟩

/-- C10: If `NewResource` fails inside `NewResourceFromResourceConfig`
after `ConnectAll` succeeded, every connected backend is closed, in order,
before the error is returned, so no connection leaks on a failed
construction. -/
theorem newResourceFromResourceConfig_closes_all_on_failure
    (backendList : List Backend) (sources : List Renderer) (e : String)
    (h : NewResource backendList sources = .error e) :
    NewResourceFromResourceConfig (.ok backendList) sources
      = (.error e, backendList.map (fun v => Action.closeBackend v.name)) := by
  simp [NewResourceFromResourceConfig, h]

/-- Witness for the C10 theorem: a renderer with an empty `Src` makes the
construction fail after one backend was connected, and that backend is
closed. -/
theorem newResourceFromResourceConfig_closes_all_on_failure_witness :
    NewResourceFromResourceConfig (.ok [{ name := "a" }]) [{ src := "" }]
      = (.error ("empty src template"), [Action.closeBackend ("a")]) :=
  newResourceFromResourceConfig_closes_all_on_failure [{ name := "a" }] [{ src := "" }]
    ("empty src template") (by rfl)

theorem NewResource_ok_inv (backends : List Backend) (sources : List Renderer)
    (r : Resource) (tr : List Action)
    (h : NewResource backends sources = .ok (r, tr)) :
    r.backends = (backends.map upgradeBackend).map Prod.fst
    ∧ tr = ((backends.map upgradeBackend).map Prod.snd).flatten := by
  unfold NewResource at h
  by_cases h1 : backends.isEmpty
  · rw [if_pos h1] at h
    cases h
  · rw [if_neg h1] at h
    by_cases h2 : sources.any (fun v => v.src == "")
    · rw [if_pos h2] at h
      cases h
    · rw [if_neg h2] at h
      rw [Except.ok.injEq, Prod.mk.injEq] at h
      exact ⟨congrArg Resource.backends h.1.symm, h.2.symm⟩

theorem NewResource_backend_at (backends : List Backend) (sources : List Renderer)
    (r : Resource) (tr : List Action) (j : Nat)
    (h : NewResource backends sources = .ok (r, tr)) (hj : j < backends.length) :
    r.backends.getD j default = (upgradeBackend (backends.getD j default)).1 := by
  obtain ⟨hb, _⟩ := NewResource_ok_inv backends sources r tr h
  rw [hb, List.getD_eq_getElem?_getD, List.getD_eq_getElem?_getD,
    List.getElem?_map, List.getElem?_map, List.getElem?_eq_getElem hj]
  simp

theorem NewResource_warns (backends : List Backend) (sources : List Renderer)
    (r : Resource) (tr : List Action) (j : Nat)
    (h : NewResource backends sources = .ok (r, tr)) (hj : j < backends.length)
    (hcond : (backends.getD j default).interval ≤ 0 ∧ ¬(backends.getD j default).onetime
      ∧ ¬(backends.getD j default).watch) :
    Action.warnInterval (backends.getD j default).name ∈ tr := by
  obtain ⟨_, htr⟩ := NewResource_ok_inv backends sources r tr h
  rw [htr, List.mem_flatten]
  refine ⟨[Action.warnInterval (backends.getD j default).name], ?_,
    List.mem_singleton_self _⟩
  have hmem : backends.getD j default ∈ backends := by
    rw [List.getD_eq_getElem?_getD, List.getElem?_eq_getElem hj]
    exact List.getElem_mem hj
  have hup : (upgradeBackend (backends.getD j default)).2
      = [Action.warnInterval (backends.getD j default).name] := by
    rw [List.getD_eq_getElem?_getD] at hcond ⊢
    simp only [Bool.not_eq_true] at hcond
    simp [upgradeBackend, hcond]
  rw [← hup]
  exact List.mem_map_of_mem Prod.snd (List.mem_map_of_mem upgradeBackend hmem)

/-- C8: A backend handed to construction with a non-positive interval
and neither `Watch` nor `Onetime` set has its interval upgraded to 60 and
a warning logged; any other backend keeps its configured interval. -/
theorem newResource_interval_upgrade (backends : List Backend) (sources : List Renderer)
    (r : Resource) (tr : List Action) (j : Nat)
    (h : NewResource backends sources = .ok (r, tr)) (hj : j < backends.length) :
    ((backends.getD j default).interval ≤ 0 ∧ ¬(backends.getD j default).onetime
        ∧ ¬(backends.getD j default).watch →
      (r.backends.getD j default).interval = 60
      ∧ Action.warnInterval (backends.getD j default).name ∈ tr)
    ∧ (¬((backends.getD j default).interval ≤ 0 ∧ ¬(backends.getD j default).onetime
        ∧ ¬(backends.getD j default).watch) →
      (r.backends.getD j default).interval = (backends.getD j default).interval) := by
  constructor
  · intro hcond
    refine ⟨?_, NewResource_warns backends sources r tr j h hj hcond⟩
    rw [NewResource_backend_at backends sources r tr j h hj]
    rw [List.getD_eq_getElem?_getD] at hcond
    simp only [Bool.not_eq_true] at hcond
    simp [upgradeBackend, hcond]
  · intro hcond
    rw [NewResource_backend_at backends sources r tr j h hj]
    rw [List.getD_eq_getElem?_getD] at hcond
    simp only [Bool.not_eq_true] at hcond
    simp [upgradeBackend, hcond]

/-- Witness for the C8 theorem: backend "w" with interval 0 is upgraded to
60 and warned about; backend "x" with interval 5 keeps its interval. -/
theorem newResource_interval_upgrade_witness :
    (({ backends := [{ name := "w", interval := 60 }, { name := "x", interval := 5 }] }
        : Resource).backends.getD 0 default).interval = 60
    ∧ Action.warnInterval ("w") ∈ [Action.warnInterval ("w")]
    ∧ (({ backends := [{ name := "w", interval := 60 }, { name := "x", interval := 5 }] }
        : Resource).backends.getD 1 default).interval = 5 :=
  ⟨((newResource_interval_upgrade [{ name := "w" }, { name := "x", interval := 5 }] []
      { backends := [{ name := "w", interval := 60 }, { name := "x", interval := 5 }] }
      [Action.warnInterval ("w")] 0 (by rfl) (by decide)).1 (by decide)).1,
   ((newResource_interval_upgrade [{ name := "w" }, { name := "x", interval := 5 }] []
      { backends := [{ name := "w", interval := 60 }, { name := "x", interval := 5 }] }
      [Action.warnInterval ("w")] 0 (by rfl) (by decide)).1 (by decide)).2,
   (newResource_interval_upgrade [{ name := "w" }, { name := "x", interval := 5 }] []
      { backends := [{ name := "w", interval := 60 }, { name := "x", interval := 5 }] }
      [Action.warnInterval ("w")] 1 (by rfl) (by decide)).2 (by decide)⟩

/-! ### Backend names are construction-time constants -/

theorem setVars_backend_name (t : Resource) (i : Nat) (f : FetchResult) (j : Nat) :
    ((setVars t i f).1.backends.getD j default).name
      = (t.backends.getD j default).name := by
  cases f with
  | error e => rfl
  | ok result =>
    simp only [setVars_ok]
    simp only [List.getD_eq_getElem?_getD]
    rw [List.getElem?_set]
    by_cases hij : i = j
    · subst hij
      by_cases hlen : i < t.backends.length
      · rw [if_pos rfl, if_pos hlen, Option.getD_some]
      · rw [if_pos rfl, if_neg hlen, Option.getD_none,
          List.getElem?_eq_none (Nat.le_of_not_lt hlen), Option.getD_none]
    · rw [if_neg hij]

theorem processVars_backend_name (t : Resource) (idxs : List Nat)
    (env : Nat → FetchResult) (j : Nat) :
    ((processVars t idxs env).1.backends.getD j default).name
      = (t.backends.getD j default).name := by
  induction idxs generalizing t with
  | nil => rfl
  | cons i rest ih =>
    cases hf : env i with
    | error e => rw [processVars_cons_error t i rest env e hf]
    | ok result =>
      rw [processVars_cons_ok t i rest env result hf]
      exact (ih _).trans (setVars_backend_name t i _ j)

/-! ### No staging happens while setVars runs -/

theorem stageSync_not_mem_setVars (t : Resource) (i : Nat) (f : FetchResult) :
    Action.stageSync ∉ (setVars t i f).2.2 := by
  cases f with
  | error e =>
    rw [setVars_error]
    simp
  | ok result =>
    simp only [setVars_ok]
    intro hmem
    rcases List.mem_cons.mp hmem with h | h
    · cases h
    · obtain ⟨w, _, hw⟩ := List.mem_map.mp h
      cases hw

theorem stageSync_not_mem_processVars (t : Resource) (idxs : List Nat)
    (env : Nat → FetchResult) :
    Action.stageSync ∉ (processVars t idxs env).2.2 := by
  induction idxs generalizing t with
  | nil => simp [processVars_nil]
  | cons i rest ih =>
    cases hf : env i with
    | error e =>
      rw [processVars_cons_error t i rest env e hf]
      simp
    | ok result =>
      rw [processVars_cons_ok t i rest env result hf]
      intro hmem
      rcases List.mem_append.mp hmem with h | h
      · exact stageSync_not_mem_setVars t i _ h
      · exact ih _ h

theorem processVars_first_error (t : Resource) (pre : List Nat) (i : Nat)
    (post : List Nat) (env : Nat → FetchResult) (e : String)
    (hpre : ∀ j ∈ pre, fetchFailed (env j) = false)
    (hi : env i = .error e) :
    (processVars t (pre ++ i :: post) env).2.1
      = some ⟨(t.backends.getD i default).name,
              "setVars failed: " ++ ("getValues failed: " ++ e)⟩ := by
  induction pre generalizing t with
  | nil =>
    rw [List.nil_append, processVars_cons_error t i post env e hi]
  | cons j rest ih =>
    have hj := hpre j (List.mem_cons_self j rest)
    cases hf : env j with
    | error e' =>
      rw [hf] at hj
      cases hj
    | ok result =>
      rw [List.cons_append, processVars_cons_ok t j (rest ++ i :: post) env result hf]
      rw [ih _ (fun x hx => hpre x (List.mem_cons_of_mem j hx))]
      rw [setVars_backend_name t j (.ok result) i]

/-- C6: Whenever `setVars` fails for some backend during a `process`
call (every earlier backend's fetch having succeeded), `process` returns a
`BackendError` carrying that backend's name and a message wrapping the
underlying failure, and `createStageFileAndSync` is not invoked during
that call. -/
theorem process_setVars_failure_backendError (t : Resource) (pre : List Nat) (i : Nat)
    (post : List Nat) (env : Nat → FetchResult) (render : RenderResult) (e : String)
    (hpre : ∀ j ∈ pre, fetchFailed (env j) = false)
    (hi : env i = .error e) :
    (process t (pre ++ i :: post) env render).2.2.1
      = some (.backendError ⟨(t.backends.getD i default).name,
          "setVars failed: " ++ ("getValues failed: " ++ e)⟩)
    ∧ Action.stageSync ∉ (process t (pre ++ i :: post) env render).2.2.2 := by
  have hfirst := processVars_first_error t pre i post env e hpre hi
  rw [process_eq_of_processVars_some t (pre ++ i :: post) env render _ hfirst]
  refine ⟨rfl, ?_⟩
  intro hmem
  rcases List.mem_cons.mp hmem with h | h
  · cases h
  · exact stageSync_not_mem_processVars t (pre ++ i :: post) env h

/-- Witness for the C6 theorem: with two backends, the first fetch
succeeding and the second failing, `process` returns the `BackendError`
for backend "b" and never stages. -/
theorem process_setVars_failure_backendError_witness :
    (process { backends := [{ name := "a" }, { name := "b" }] } ([0] ++ 1 :: [])
        (fun i => if i = 0 then .ok [] else .error ("boom")) (false, none)).2.2.1
      = some (.backendError ⟨"b", "setVars failed: " ++ ("getValues failed: " ++ "boom")⟩)
    ∧ Action.stageSync ∉ (process { backends := [{ name := "a" }, { name := "b" }] }
        ([0] ++ 1 :: [])
        (fun i => if i = 0 then .ok [] else .error ("boom")) (false, none)).2.2.2 :=
  process_setVars_failure_backendError
    { backends := [{ name := "a" }, { name := "b" }] } [0] 1 []
    (fun i => if i = 0 then .ok [] else .error ("boom")) (false, none) ("boom")
    (by intro j hj; cases List.mem_singleton.mp hj; rfl) (by rfl)

/-! ### Frame properties of a single-backend process call -/

theorem processVars_single_env_agree (t : Resource) (i : Nat)
    (env env' : Nat → FetchResult) (henv : env i = env' i) :
    processVars t [i] env = processVars t [i] env' := by
  cases hf : env i with
  | error e =>
    rw [processVars_cons_error t i [] env e hf,
      processVars_cons_error t i [] env' e (henv ▸ hf)]
  | ok result =>
    rw [processVars_cons_ok t i [] env result hf,
      processVars_cons_ok t i [] env' result (henv ▸ hf),
      processVars_nil, processVars_nil]

theorem process_single_env_agree (t : Resource) (i : Nat)
    (env env' : Nat → FetchResult) (render : RenderResult) (henv : env i = env' i) :
    process t [i] env render = process t [i] env' render := by
  unfold process
  rw [processVars_single_env_agree t i env env' henv]

theorem filterGetValues_warnCollision (ws : List String) :
    (ws.map Action.warnCollision).filter
      (fun a => match a with | .getValues _ => true | _ => false) = [] := by
  induction ws with
  | nil => rfl
  | cons w rest ih =>
    simp only [List.map_cons, List.filter_cons]
    exact ih

/-- C3: When the main select loop handles a `processChan` event for the
backend at index `i`, the resulting `process` over just that backend: (a)
leaves every other backend's entry (hence its store) unchanged, (b)
depends only on that backend's `GetValues` outcome, (c) performs a
`GetValues` call only for that backend, and (d) on success rebuilds the
merged store from the FULL backend list, reusing the other backends'
existing, possibly stale, stores. -/
theorem process_single_backend_frame (t : Resource) (i : Nat)
    (env env' : Nat → FetchResult) (render : RenderResult) :
    (∀ j, j ≠ i → (process t [i] env render).1.backends[j]? = t.backends[j]?)
    ∧ (env i = env' i → process t [i] env render = process t [i] env' render)
    ∧ ((process t [i] env render).2.2.2.filter
          (fun a => match a with | .getValues _ => true | _ => false)
        = [Action.getValues (t.backends.getD i default).name])
    ∧ ((process t [i] env render).2.2.1 = none →
        (process t [i] env render).1.store
          = (mergeStores (process t [i] env render).1.backends).1) := by
  refine ⟨?_, process_single_env_agree t i env env' render, ?_, ?_⟩
  · intro j hij
    rw [process_fst_eq]
    cases hf : env i with
    | error e => rw [processVars_cons_error t i [] env e hf]
    | ok result =>
      rw [processVars_cons_ok t i [] env result hf, processVars_nil]
      exact setVars_backends_getElem?_ne t i _ j hij
  · cases hf : env i with
    | error e =>
      have hpv := processVars_cons_error t i [] env e hf
      rw [process_eq_of_processVars_some t [i] env render _ (by rw [hpv]), hpv]
      simp [List.filter_cons]
    | ok result =>
      have hpv := processVars_cons_ok t i [] env result hf
      have hnone : (processVars t [i] env).2.1 = none := by
        rw [hpv, processVars_nil]
      rw [process_eq_of_processVars_none t [i] env render hnone, hpv, processVars_nil,
        setVars_ok]
      simp [List.filter_cons, List.filter_append, filterGetValues_warnCollision]
  · intro h
    have hpv : (processVars t [i] env).2.1 = none :=
      ((process_err_none_iff t [i] env render).mp h).1
    rw [process_fst_eq]
    exact (processVars_none_store_trace t [i] env (by simp) hpv).1

/-- Witness for the C3 theorem with two backends and an event for index 0:
backend 1's entry is untouched, a second environment agreeing at index 0
yields the identical result, only backend "a" is fetched, and the merged
store is rebuilt from the full list. -/
theorem process_single_backend_frame_witness :
    (process { backends := [{ name := "a" }, { name := "b" }] } [0]
        (fun _ => .ok []) (false, none)).1.backends[1]?
      = ({ backends := [{ name := "a" }, { name := "b" }] } : Resource).backends[1]?
    ∧ process { backends := [{ name := "a" }, { name := "b" }] } [0]
        (fun _ => .ok []) (false, none)
      = process { backends := [{ name := "a" }, { name := "b" }] } [0]
        (fun i => if i = 0 then .ok [] else .error ("x")) (false, none)
    ∧ (process { backends := [{ name := "a" }, { name := "b" }] } [0]
        (fun _ => .ok []) (false, none)).2.2.2.filter
          (fun a => match a with | .getValues _ => true | _ => false)
      = [Action.getValues ("a")]
    ∧ (process { backends := [{ name := "a" }, { name := "b" }] } [0]
        (fun _ => .ok []) (false, none)).1.store
      = (mergeStores (process { backends := [{ name := "a" }, { name := "b" }] } [0]
          (fun _ => .ok []) (false, none)).1.backends).1 :=
  ⟨(process_single_backend_frame { backends := [{ name := "a" }, { name := "b" }] } 0
      (fun _ => .ok []) (fun i => if i = 0 then .ok [] else .error ("x"))
      (false, none)).1 1 (by decide),
   (process_single_backend_frame { backends := [{ name := "a" }, { name := "b" }] } 0
      (fun _ => .ok []) (fun i => if i = 0 then .ok [] else .error ("x"))
      (false, none)).2.1 (by rfl),
   (process_single_backend_frame { backends := [{ name := "a" }, { name := "b" }] } 0
      (fun _ => .ok []) (fun i => if i = 0 then .ok [] else .error ("x"))
      (false, none)).2.2.1,
   (process_single_backend_frame { backends := [{ name := "a" }, { name := "b" }] } 0
      (fun _ => .ok []) (fun i => if i = 0 then .ok [] else .error ("x"))
      (false, none)).2.2.2 (by rfl)⟩

/-! ### The select loop: reload discipline -/

theorem reload_not_mem_setVars (t : Resource) (i : Nat) (f : FetchResult) :
    Action.reload ∉ (setVars t i f).2.2 := by
  cases f with
  | error e =>
    rw [setVars_error]
    simp
  | ok result =>
    simp only [setVars_ok]
    intro hmem
    rcases List.mem_cons.mp hmem with h | h
    · cases h
    · obtain ⟨w, _, hw⟩ := List.mem_map.mp h
      cases hw

theorem reload_not_mem_processVars (t : Resource) (idxs : List Nat)
    (env : Nat → FetchResult) :
    Action.reload ∉ (processVars t idxs env).2.2 := by
  induction idxs generalizing t with
  | nil => simp [processVars_nil]
  | cons i rest ih =>
    cases hf : env i with
    | error e =>
      rw [processVars_cons_error t i rest env e hf]
      simp
    | ok result =>
      rw [processVars_cons_ok t i rest env result hf]
      intro hmem
      rcases List.mem_append.mp hmem with h | h
      · exact reload_not_mem_setVars t i _ h
      · exact ih _ h

theorem reload_not_mem_process (t : Resource) (idxs : List Nat)
    (env : Nat → FetchResult) (render : RenderResult) :
    Action.reload ∉ (process t idxs env render).2.2.2 := by
  cases h : (processVars t idxs env).2.1 with
  | some be =>
    rw [process_eq_of_processVars_some t idxs env render be h]
    intro hmem
    rcases List.mem_cons.mp hmem with hc | hc
    · cases hc
    · exact reload_not_mem_processVars t idxs env hc
  | none =>
    rw [process_eq_of_processVars_none t idxs env render h]
    intro hmem
    rcases List.mem_cons.mp hmem with hc | hc
    · cases hc
    · rcases List.mem_append.mp hc with hd | hd
      · exact reload_not_mem_processVars t idxs env hd
      · rcases List.mem_singleton.mp hd with ⟨⟩

theorem logProcessError_ne_reload (pe : ProcessError) :
    logProcessError pe ≠ Action.reload := by
  cases pe <;> simp [logProcessError]

theorem handleEvent_err (t : Resource) (e : Event) (pe : ProcessError)
    (h : (process t [e.backendIdx] e.env e.render).2.2.1 = some pe) :
    handleEvent t e = ((process t [e.backendIdx] e.env e.render).1,
      (process t [e.backendIdx] e.env e.render).2.2.2 ++ [logProcessError pe]) := by
  simp [handleEvent, h]

theorem handleEvent_ok (t : Resource) (e : Event)
    (h : (process t [e.backendIdx] e.env e.render).2.2.1 = none) :
    handleEvent t e = ((process t [e.backendIdx] e.env e.render).1,
      (process t [e.backendIdx] e.env e.render).2.2.2 ++
        (if (process t [e.backendIdx] e.env e.render).2.1 then
          Action.reload :: (match e.reloadErr with
            | some m => [Action.logReloadError m]
            | none => [])
         else [])) := by
  cases hc : (process t [e.backendIdx] e.env e.render).2.1 with
  | true => simp [handleEvent, h, hc]
  | false => simp [handleEvent, h, hc]

theorem eventLoop_cons (t : Resource) (e : Event) (events : List Event) :
    eventLoop t (e :: events)
      = ((eventLoop (handleEvent t e).1 events).1,
         (handleEvent t e).2 ++ (eventLoop (handleEvent t e).1 events).2) := rfl

/-- C2: For a `processChan` event handled by the main select loop:
`exec.Reload` is invoked iff `process` over just that backend returned
`changed = true` and no error; the event's trace is the `process` trace
followed by at most the reload and its error log, so the reload is issued
only after that `process` call completed, at most once per event; a reload
failure only adds a log entry; and the loop handles the remaining events
afterwards regardless, one at a time (reloads are serialized). -/
theorem select_loop_reload_iff_changed (t : Resource) (e : Event) (events : List Event) :
    ((Action.reload ∈ (handleEvent t e).2)
        ↔ ((process t [e.backendIdx] e.env e.render).2.1 = true
           ∧ (process t [e.backendIdx] e.env e.render).2.2.1 = none))
    ∧ ((handleEvent t e).2
        = (process t [e.backendIdx] e.env e.render).2.2.2
          ++ (match (process t [e.backendIdx] e.env e.render).2.2.1 with
              | some pe => [logProcessError pe]
              | none =>
                  if (process t [e.backendIdx] e.env e.render).2.1 then
                    Action.reload :: (match e.reloadErr with
                      | some m => [Action.logReloadError m]
                      | none => [])
                  else []))
    ∧ ((handleEvent t e).2.count Action.reload
        = if (process t [e.backendIdx] e.env e.render).2.1 = true
             ∧ (process t [e.backendIdx] e.env e.render).2.2.1 = none then 1 else 0)
    ∧ (eventLoop t (e :: events)
        = ((eventLoop (handleEvent t e).1 events).1,
           (handleEvent t e).2 ++ (eventLoop (handleEvent t e).1 events).2)) := by
  have hnotmem := reload_not_mem_process t [e.backendIdx] e.env e.render
  have hcount0 : (process t [e.backendIdx] e.env e.render).2.2.2.count Action.reload = 0 :=
    List.count_eq_zero.mpr hnotmem
  refine ⟨?_, ?_, ?_, eventLoop_cons t e events⟩
  · cases h : (process t [e.backendIdx] e.env e.render).2.2.1 with
    | some pe =>
      rw [handleEvent_err t e pe h]
      constructor
      · intro hmem
        rcases List.mem_append.mp hmem with hm | hm
        · exact absurd hm hnotmem
        · exact absurd (List.mem_singleton.mp hm).symm (logProcessError_ne_reload pe)
      · intro hmem
        exact absurd hmem.2 (by simp [h])
    | none =>
      rw [handleEvent_ok t e h]
      cases hc : (process t [e.backendIdx] e.env e.render).2.1 with
      | true =>
        constructor
        · intro _
          exact ⟨rfl, rfl⟩
        · intro _
          exact List.mem_append.mpr (Or.inr (List.mem_cons_self _ _))
      | false =>
        constructor
        · intro hmem
          rcases List.mem_append.mp hmem with hm | hm
          · exact absurd hm hnotmem
          · simp at hm
        · intro hmem
          exact absurd hmem.1 (by decide)
  · cases h : (process t [e.backendIdx] e.env e.render).2.2.1 with
    | some pe => rw [handleEvent_err t e pe h]
    | none => rw [handleEvent_ok t e h]
  · cases h : (process t [e.backendIdx] e.env e.render).2.2.1 with
    | some pe =>
      rw [handleEvent_err t e pe h]
      have hne := logProcessError_ne_reload pe
      simp [List.count_append, List.count_singleton, hcount0, hne, h]
    | none =>
      rw [handleEvent_ok t e h]
      cases hc : (process t [e.backendIdx] e.env e.render).2.1 with
      | true =>
        cases hr : e.reloadErr with
        | some m => simp [hr, List.count_append, List.count_cons, hcount0]
        | none => simp [hr, List.count_append, List.count_cons, hcount0]
      | false =>
        simp [List.count_append, hcount0]

/-! ### Trace shape of process calls -/

theorem setVars_trace_shape (t : Resource) (i : Nat) (f : FetchResult) :
    ∀ x ∈ (setVars t i f).2.2,
      (∃ nm, x = Action.getValues nm) ∨ (∃ k, x = Action.warnCollision k) := by
  cases f with
  | error e =>
    rw [setVars_error]
    intro x hx
    rw [List.mem_singleton.mp hx]
    exact Or.inl ⟨_, rfl⟩
  | ok result =>
    simp only [setVars_ok]
    intro x hx
    rcases List.mem_cons.mp hx with h | h
    · exact Or.inl ⟨_, h⟩
    · obtain ⟨k, _, hk⟩ := List.mem_map.mp h
      exact Or.inr ⟨k, hk.symm⟩

theorem processVars_trace_shape (t : Resource) (idxs : List Nat) (env : Nat → FetchResult) :
    ∀ x ∈ (processVars t idxs env).2.2,
      (∃ nm, x = Action.getValues nm) ∨ (∃ k, x = Action.warnCollision k) := by
  induction idxs generalizing t with
  | nil =>
    rw [processVars_nil]
    intro x hx
    cases hx
  | cons i rest ih =>
    cases hf : env i with
    | error e =>
      rw [processVars_cons_error t i rest env e hf]
      intro x hx
      rw [List.mem_singleton.mp hx]
      exact Or.inl ⟨_, rfl⟩
    | ok result =>
      rw [processVars_cons_ok t i rest env result hf]
      intro x hx
      rcases List.mem_append.mp hx with h | h
      · exact setVars_trace_shape t i _ x h
      · exact ih _ x h

theorem process_trace_shape (t : Resource) (idxs : List Nat) (env : Nat → FetchResult)
    (render : RenderResult) :
    ∀ x ∈ (process t idxs env render).2.2.2,
      x = Action.processCall idxs ∨ (∃ nm, x = Action.getValues nm)
      ∨ (∃ k, x = Action.warnCollision k) ∨ x = Action.stageSync := by
  cases h : (processVars t idxs env).2.1 with
  | some be =>
    rw [process_eq_of_processVars_some t idxs env render be h]
    intro x hx
    rcases List.mem_cons.mp hx with hc | hc
    · exact Or.inl hc
    · rcases processVars_trace_shape t idxs env x hc with hs | hs
      · exact Or.inr (Or.inl hs)
      · exact Or.inr (Or.inr (Or.inl hs))
  | none =>
    rw [process_eq_of_processVars_none t idxs env render h]
    intro x hx
    rcases List.mem_cons.mp hx with hc | hc
    · exact Or.inl hc
    · rcases List.mem_append.mp hc with hd | hd
      · rcases processVars_trace_shape t idxs env x hd with hs | hs
        · exact Or.inr (Or.inl hs)
        · exact Or.inr (Or.inr (Or.inl hs))
      · exact Or.inr (Or.inr (Or.inr (List.mem_singleton.mp hd)))

theorem process_trace_processCall_arg (t : Resource) (idxs : List Nat)
    (env : Nat → FetchResult) (render : RenderResult) (idxs' : List Nat)
    (h : Action.processCall idxs' ∈ (process t idxs env render).2.2.2) : idxs' = idxs := by
  rcases process_trace_shape t idxs env render _ h with hc | hc | hc | hc
  · cases hc
    rfl
  · obtain ⟨nm, hnm⟩ := hc
    cases hnm
  · obtain ⟨k, hk⟩ := hc
    cases hk
  · cases hc

theorem process_trace_countP_processCall (t : Resource) (idxs : List Nat)
    (env : Nat → FetchResult) (render : RenderResult) :
    (process t idxs env render).2.2.2.countP
      (fun x => match x with | Action.processCall _ => true | _ => false) = 1 := by
  have hpv0 : (processVars t idxs env).2.2.countP
      (fun x => match x with | Action.processCall _ => true | _ => false) = 0 := by
    rw [List.countP_eq_zero]
    intro x hx
    rcases processVars_trace_shape t idxs env x hx with ⟨nm, hnm⟩ | ⟨k, hk⟩
    · rw [hnm]
      simp
    · rw [hk]
      simp
  cases h : (processVars t idxs env).2.1 with
  | some be =>
    rw [process_eq_of_processVars_some t idxs env render be h, List.countP_cons, hpv0]
    rfl
  | none =>
    rw [process_eq_of_processVars_none t idxs env render h, List.countP_cons,
      List.countP_append, hpv0]
    rfl

theorem process_trace_no_sleep (t : Resource) (idxs : List Nat)
    (env : Nat → FetchResult) (render : RenderResult) (r : Nat) :
    Action.sleepSeconds r ∉ (process t idxs env render).2.2.2 := by
  intro h
  rcases process_trace_shape t idxs env render _ h with hc | ⟨nm, hc⟩ | ⟨k, hc⟩ | hc <;> cases hc

theorem process_trace_no_spawn (t : Resource) (idxs : List Nat)
    (env : Nat → FetchResult) (render : RenderResult) :
    Action.spawnChild ∉ (process t idxs env render).2.2.2 := by
  intro h
  rcases process_trace_shape t idxs env render _ h with hc | ⟨nm, hc⟩ | ⟨k, hc⟩ | hc <;> cases hc

/-! ### The retry loop -/

theorem processVars_err_none_iff (t : Resource) (idxs : List Nat)
    (env : Nat → FetchResult) :
    (processVars t idxs env).2.1 = none ↔ ∀ i ∈ idxs, fetchFailed (env i) = false := by
  induction idxs generalizing t with
  | nil => simp [processVars_nil]
  | cons i rest ih =>
    cases hf : env i with
    | error e =>
      rw [processVars_cons_error t i rest env e hf]
      simp [hf, fetchFailed]
    | ok result =>
      rw [processVars_cons_ok t i rest env result hf]
      simp [hf, fetchFailed, ih]

theorem process_err_none_iff_attemptFails (t : Resource) (idxs : List Nat) (a : Attempt) :
    (process t idxs a.env a.render).2.2.1 = none ↔ attemptFails idxs a = false := by
  rw [process_err_none_iff, processVars_err_none_iff, attemptFails,
    Bool.or_eq_false_iff, List.any_eq_false]
  constructor
  · rintro ⟨h1, h2⟩
    exact ⟨fun i hi => by simp [h1 i hi], by simp [h2]⟩
  · rintro ⟨h1, h2⟩
    refine ⟨fun i hi => by simpa using h1 i hi, ?_⟩
    exact Option.not_isSome_iff_eq_none.mp (by simp [h2])

theorem retryLoop_nil (t : Resource) : retryLoop t [] = (t, none, []) := rfl

theorem retryLoop_cons_ok (t : Resource) (a : Attempt) (rest : List Attempt)
    (h : (process t (List.range t.backends.length) a.env a.render).2.2.1 = none) :
    retryLoop t (a :: rest)
      = ((process t (List.range t.backends.length) a.env a.render).1,
         some (process t (List.range t.backends.length) a.env a.render).2.1,
         (process t (List.range t.backends.length) a.env a.render).2.2.2) := by
  simp [retryLoop, h]

theorem retryLoop_cons_err_cancel (t : Resource) (a : Attempt) (rest : List Attempt)
    (e : ProcessError)
    (h : (process t (List.range t.backends.length) a.env a.render).2.2.1 = some e)
    (hcancel : a.cancelledDuringSleep = true) :
    retryLoop t (a :: rest)
      = ((process t (List.range t.backends.length) a.env a.render).1, none,
         (process t (List.range t.backends.length) a.env a.render).2.2.2
           ++ [logProcessError e, Action.sleepSeconds (int63n 30 a.draw)]) := by
  simp [retryLoop, h, hcancel]

theorem retryLoop_cons_err_retry (t : Resource) (a : Attempt) (rest : List Attempt)
    (e : ProcessError)
    (h : (process t (List.range t.backends.length) a.env a.render).2.2.1 = some e)
    (hcancel : a.cancelledDuringSleep = false) :
    retryLoop t (a :: rest)
      = ((retryLoop (process t (List.range t.backends.length) a.env a.render).1 rest).1,
         (retryLoop (process t (List.range t.backends.length) a.env a.render).1 rest).2.1,
         ((process t (List.range t.backends.length) a.env a.render).2.2.2
           ++ [logProcessError e, Action.sleepSeconds (int63n 30 a.draw)])
           ++ (retryLoop (process t (List.range t.backends.length) a.env a.render).1 rest).2.2) := by
  simp [retryLoop, h, hcancel]

theorem logProcessError_shape (e : ProcessError) :
    (∃ b m, logProcessError e = Action.logBackendError b m)
    ∨ (∃ m, logProcessError e = Action.logError m) := by
  cases e with
  | backendError be => exact Or.inl ⟨_, _, rfl⟩
  | wrapped m => exact Or.inr ⟨_, rfl⟩

theorem process_trace_countP_sleep_zero (t : Resource) (idxs : List Nat)
    (env : Nat → FetchResult) (render : RenderResult) :
    (process t idxs env render).2.2.2.countP
      (fun x => match x with | Action.sleepSeconds _ => true | _ => false) = 0 := by
  rw [List.countP_eq_zero]
  intro x hx
  rcases process_trace_shape t idxs env render x hx with hc | ⟨nm, hc⟩ | ⟨k, hc⟩ | hc <;>
    (rw [hc]; simp)

theorem countP_log_sleep_processCall (e : ProcessError) (r : Nat) :
    ([logProcessError e, Action.sleepSeconds r] : List Action).countP
      (fun x => match x with | Action.processCall _ => true | _ => false) = 0 := by
  cases e <;> rfl

theorem countP_log_sleep_sleep (e : ProcessError) (r : Nat) :
    ([logProcessError e, Action.sleepSeconds r] : List Action).countP
      (fun x => match x with | Action.sleepSeconds _ => true | _ => false) = 1 := by
  cases e <;> rfl

theorem retryLoop_all_fail (n : Nat) (t : Resource) (attempts : List Attempt)
    (hn : t.backends.length = n)
    (hfail : ∀ a ∈ attempts, attemptFails (List.range n) a = true)
    (hcancel : ∀ a ∈ attempts, a.cancelledDuringSleep = false) :
    (retryLoop t attempts).2.1 = none
    ∧ (∀ idxs', Action.processCall idxs' ∈ (retryLoop t attempts).2.2
        → idxs' = List.range n)
    ∧ ((retryLoop t attempts).2.2.countP
         (fun x => match x with | Action.processCall _ => true | _ => false)
       = attempts.length)
    ∧ (∀ r, Action.sleepSeconds r ∈ (retryLoop t attempts).2.2 → r < 30)
    ∧ ((retryLoop t attempts).2.2.countP
         (fun x => match x with | Action.sleepSeconds _ => true | _ => false)
       = attempts.length) := by
  induction attempts generalizing t with
  | nil =>
    rw [retryLoop_nil]
    refine ⟨rfl, ?_, rfl, ?_, rfl⟩
    · intro idxs' h
      cases h
    · intro r h
      cases h
  | cons a rest ih =>
    have ha := hfail a (List.mem_cons_self a rest)
    have haf : (process t (List.range t.backends.length) a.env a.render).2.2.1 ≠ none := by
      rw [hn]
      intro hnone
      rw [(process_err_none_iff_attemptFails t (List.range n) a).mp hnone] at ha
      cases ha
    obtain ⟨e, he⟩ := Option.ne_none_iff_exists.mp haf
    rw [retryLoop_cons_err_retry t a rest e he.symm
      (hcancel a (List.mem_cons_self a rest))]
    have hn₁ : (process t (List.range t.backends.length) a.env a.render).1.backends.length
        = n := by
      rw [process_fst_eq, processVars_backends_length, hn]
    obtain ⟨ih1, ih2, ih3, ih4, ih5⟩ := ih _ hn₁
      (fun x hx => hfail x (List.mem_cons_of_mem a hx))
      (fun x hx => hcancel x (List.mem_cons_of_mem a hx))
    refine ⟨ih1, ?_, ?_, ?_, ?_⟩
    · intro idxs' hmem
      rcases List.mem_append.mp hmem with hm | hm
      · rcases List.mem_append.mp hm with hm2 | hm2
        · rw [← hn]
          exact process_trace_processCall_arg t _ a.env a.render idxs' hm2
        · rcases List.mem_cons.mp hm2 with hc | hc
          · rcases logProcessError_shape e with ⟨b, m, hsh⟩ | ⟨m, hsh⟩ <;>
              (rw [hsh] at hc; cases hc)
          · cases List.mem_singleton.mp hc
      · exact ih2 idxs' hm
    · rw [List.countP_append, List.countP_append, ih3,
        process_trace_countP_processCall, countP_log_sleep_processCall]
      simp [List.length_cons]
      omega
    · intro r hmem
      rcases List.mem_append.mp hmem with hm | hm
      · rcases List.mem_append.mp hm with hm2 | hm2
        · exact absurd hm2 (process_trace_no_sleep t _ a.env a.render r)
        · rcases List.mem_cons.mp hm2 with hc | hc
          · rcases logProcessError_shape e with ⟨b, m, hsh⟩ | ⟨m, hsh⟩ <;>
              (rw [hsh] at hc; cases hc)
          · cases List.mem_singleton.mp hc
            exact Nat.mod_lt _ (by decide)
      · exact ih4 r hm
    · rw [List.countP_append, List.countP_append, ih5,
        process_trace_countP_sleep_zero, countP_log_sleep_sleep]
      simp [List.length_cons]
      omega

/-- C4: During initial convergence, as long as the context is not
cancelled, each failing `process` attempt over the full backend list is
followed by a sleep of `rand.Int63n(30)` seconds -- an integer duration in
`[0, 30)` -- after which the loop retries; every `process` call issued by
the retry loop uses ALL backends (the full index range, never a subset),
there is one such call and one sleep per failed attempt, and the loop is
still retrying after any finite script of failures (retries are
unbounded). -/
theorem monitor_retry_full_backends_bounded_sleep (t : Resource) (attempts : List Attempt)
    (hfail : ∀ a ∈ attempts, attemptFails (List.range t.backends.length) a = true)
    (hcancel : ∀ a ∈ attempts, a.cancelledDuringSleep = false) :
    (retryLoop t attempts).2.1 = none
    ∧ (∀ idxs', Action.processCall idxs' ∈ (retryLoop t attempts).2.2
        → idxs' = List.range t.backends.length)
    ∧ ((retryLoop t attempts).2.2.countP
         (fun x => match x with | Action.processCall _ => true | _ => false)
       = attempts.length)
    ∧ (∀ r, Action.sleepSeconds r ∈ (retryLoop t attempts).2.2 → r < 30)
    ∧ ((retryLoop t attempts).2.2.countP
         (fun x => match x with | Action.sleepSeconds _ => true | _ => false)
       = attempts.length) :=
  retryLoop_all_fail t.backends.length t attempts rfl hfail hcancel

theorem retryLoop_trace_no_reload (t : Resource) (attempts : List Attempt) :
    Action.reload ∉ (retryLoop t attempts).2.2 := by
  induction attempts generalizing t with
  | nil => simp [retryLoop_nil]
  | cons a rest ih =>
    cases h : (process t (List.range t.backends.length) a.env a.render).2.2.1 with
    | none =>
      rw [retryLoop_cons_ok t a rest h]
      exact reload_not_mem_process _ _ _ _
    | some e =>
      cases hc : a.cancelledDuringSleep with
      | true =>
        rw [retryLoop_cons_err_cancel t a rest e h hc]
        intro hmem
        rcases List.mem_append.mp hmem with hm | hm
        · exact reload_not_mem_process _ _ _ _ hm
        · rcases List.mem_cons.mp hm with hc2 | hc2
          · rcases logProcessError_shape e with ⟨b, m, hsh⟩ | ⟨m, hsh⟩ <;>
              (rw [hsh] at hc2; cases hc2)
          · cases List.mem_singleton.mp hc2
      | false =>
        rw [retryLoop_cons_err_retry t a rest e h hc]
        intro hmem
        rcases List.mem_append.mp hmem with hm | hm
        · rcases List.mem_append.mp hm with hm2 | hm2
          · exact reload_not_mem_process _ _ _ _ hm2
          · rcases List.mem_cons.mp hm2 with hc2 | hc2
            · rcases logProcessError_shape e with ⟨b, m, hsh⟩ | ⟨m, hsh⟩ <;>
                (rw [hsh] at hc2; cases hc2)
            · cases List.mem_singleton.mp hc2
        · exact ih _ hm

/-! ### Monitor phase composition -/

theorem monitor_eq_none (t : Resource) (attempts : List Attempt)
    (spawnErr : Option String) (events : List Event)
    (h : (retryLoop { t with failed := false } attempts).2.1 = none) :
    monitor t ⟨attempts, spawnErr, events⟩
      = ((retryLoop { t with failed := false } attempts).1,
         (retryLoop { t with failed := false } attempts).2.2) := by
  simp [monitor, h]

theorem monitor_eq_spawn_failure (t : Resource) (attempts : List Attempt)
    (e : String) (events : List Event) (c : Bool)
    (h : (retryLoop { t with failed := false } attempts).2.1 = some c) :
    monitor t ⟨attempts, some e, events⟩
      = ({ (retryLoop { t with failed := false } attempts).1 with failed := true },
         (retryLoop { t with failed := false } attempts).2.2
           ++ [Action.spawnChild, Action.logError e, Action.cancel]) := by
  simp [monitor, h]

theorem monitor_eq_steady (t : Resource) (attempts : List Attempt)
    (events : List Event) (c : Bool)
    (h : (retryLoop { t with failed := false } attempts).2.1 = some c) :
    monitor t ⟨attempts, none, events⟩
      = ((eventLoop (retryLoop { t with failed := false } attempts).1 events).1,
         (retryLoop { t with failed := false } attempts).2.2
           ++ [Action.spawnChild]
           ++ (eventLoop (retryLoop { t with failed := false } attempts).1 events).2) := by
  simp [monitor, h]

/-- C5: If the context is cancelled while the retry delay after a
failed initial `process` is being waited out, `Monitor` returns promptly:
its result does not depend on the remainder of the script, exactly the one
failed `process` call appears in its trace (no retry fires after the
cancellation), and the later phases never run (no child spawn, no
reload). -/
theorem monitor_cancel_during_sleep_no_retry (t : Resource) (a : Attempt)
    (rest rest' : List Attempt) (spawnErr : Option String) (events : List Event)
    (e : ProcessError)
    (hfail : (process { t with failed := false }
        (List.range t.backends.length) a.env a.render).2.2.1 = some e)
    (hcancel : a.cancelledDuringSleep = true) :
    monitor t ⟨a :: rest, spawnErr, events⟩ = monitor t ⟨a :: rest', spawnErr, events⟩
    ∧ ((monitor t ⟨a :: rest, spawnErr, events⟩).2.countP
        (fun x => match x with | Action.processCall _ => true | _ => false) = 1)
    ∧ Action.spawnChild ∉ (monitor t ⟨a :: rest, spawnErr, events⟩).2
    ∧ Action.reload ∉ (monitor t ⟨a :: rest, spawnErr, events⟩).2 := by
  have hstep := retryLoop_cons_err_cancel { t with failed := false } a rest e hfail hcancel
  have hstep' := retryLoop_cons_err_cancel { t with failed := false } a rest' e hfail hcancel
  have hr : (retryLoop { t with failed := false } (a :: rest)).2.1 = none := by
    rw [hstep]
  have hr' : (retryLoop { t with failed := false } (a :: rest')).2.1 = none := by
    rw [hstep']
  rw [monitor_eq_none t (a :: rest) spawnErr events hr,
    monitor_eq_none t (a :: rest') spawnErr events hr', hstep, hstep']
  refine ⟨rfl, ?_, ?_, ?_⟩
  · rw [List.countP_append, process_trace_countP_processCall, countP_log_sleep_processCall]
  · intro hmem
    rcases List.mem_append.mp hmem with hm | hm
    · exact process_trace_no_spawn _ _ a.env a.render hm
    · rcases List.mem_cons.mp hm with hc | hc
      · rcases logProcessError_shape e with ⟨b, m, hsh⟩ | ⟨m, hsh⟩ <;>
          (rw [hsh] at hc; cases hc)
      · cases List.mem_singleton.mp hc
  · intro hmem
    rcases List.mem_append.mp hmem with hm | hm
    · exact reload_not_mem_process _ _ a.env a.render hm
    · rcases List.mem_cons.mp hm with hc | hc
      · rcases logProcessError_shape e with ⟨b, m, hsh⟩ | ⟨m, hsh⟩ <;>
          (rw [hsh] at hc; cases hc)
      · cases List.mem_singleton.mp hc

/-- C7: If `exec.SpawnChild` fails after initial convergence
succeeded, `Monitor` logs the error, sets `Failed`, cancels the derived
context, and proceeds straight to shutdown: its result does not depend on
the steady-state events, and no event is processed (its whole trace is the
retry-phase trace followed by the spawn attempt, the error log and the
cancellation). -/
theorem monitor_spawn_failure_sets_failed_and_cancels (t : Resource)
    (attempts : List Attempt) (e : String) (events events' : List Event) (c : Bool)
    (hsucc : (retryLoop { t with failed := false } attempts).2.1 = some c) :
    (monitor t ⟨attempts, some e, events⟩).1.failed = true
    ∧ (monitor t ⟨attempts, some e, events⟩).2
        = (retryLoop { t with failed := false } attempts).2.2
          ++ [Action.spawnChild, Action.logError e, Action.cancel]
    ∧ Action.cancel ∈ (monitor t ⟨attempts, some e, events⟩).2
    ∧ monitor t ⟨attempts, some e, events⟩ = monitor t ⟨attempts, some e, events'⟩
    ∧ Action.reload ∉ (monitor t ⟨attempts, some e, events⟩).2 := by
  rw [monitor_eq_spawn_failure t attempts e events c hsucc,
    monitor_eq_spawn_failure t attempts e events' c hsucc]
  refine ⟨rfl, rfl, ?_, rfl, ?_⟩
  · exact List.mem_append.mpr (Or.inr (by simp))
  · intro hmem
    rcases List.mem_append.mp hmem with hm | hm
    · -- reload cannot appear in the retry-phase trace
      exact absurd hm (retryLoop_trace_no_reload { t with failed := false } attempts)
    · simp at hm

/-- Witness for the C4 theorem: two failing attempts with PRNG draws 45
and 7 yield two full-list process calls and two sleeps, and the sleep
bound holds at the concrete duration 15 = 45 mod 30. -/
theorem monitor_retry_full_backends_bounded_sleep_witness :
    (retryLoop { backends := [{ name := "a" }] }
        [{ env := fun _ => .error ("down"), draw := 45 },
         { env := fun _ => .error ("down"), draw := 7 }]).2.1 = none
    ∧ ((retryLoop { backends := [{ name := "a" }] }
        [{ env := fun _ => .error ("down"), draw := 45 },
         { env := fun _ => .error ("down"), draw := 7 }]).2.2.countP
          (fun x => match x with | Action.processCall _ => true | _ => false) = 2)
    ∧ 15 < 30
    ∧ ((retryLoop { backends := [{ name := "a" }] }
        [{ env := fun _ => .error ("down"), draw := 45 },
         { env := fun _ => .error ("down"), draw := 7 }]).2.2.countP
          (fun x => match x with | Action.sleepSeconds _ => true | _ => false) = 2) :=
  ⟨(monitor_retry_full_backends_bounded_sleep { backends := [{ name := "a" }] }
      [{ env := fun _ => .error ("down"), draw := 45 },
       { env := fun _ => .error ("down"), draw := 7 }] (by decide) (by decide)).1,
   (monitor_retry_full_backends_bounded_sleep { backends := [{ name := "a" }] }
      [{ env := fun _ => .error ("down"), draw := 45 },
       { env := fun _ => .error ("down"), draw := 7 }] (by decide) (by decide)).2.2.1,
   (monitor_retry_full_backends_bounded_sleep { backends := [{ name := "a" }] }
      [{ env := fun _ => .error ("down"), draw := 45 },
       { env := fun _ => .error ("down"), draw := 7 }] (by decide) (by decide)).2.2.2.1
      15 (by decide),
   (monitor_retry_full_backends_bounded_sleep { backends := [{ name := "a" }] }
      [{ env := fun _ => .error ("down"), draw := 45 },
       { env := fun _ => .error ("down"), draw := 7 }] (by decide) (by decide)).2.2.2.2⟩

/-- Witness for the C5 theorem: one failed attempt whose sleep is
interrupted by cancellation; the monitor result ignores the remaining
script and makes exactly one process call. -/
theorem monitor_cancel_during_sleep_no_retry_witness :
    monitor { backends := [{ name := "a" }] }
        ⟨[{ env := fun _ => .error ("down"), draw := 5, cancelledDuringSleep := true }],
         none, []⟩
      = monitor { backends := [{ name := "a" }] }
          ⟨[{ env := fun _ => .error ("down"), draw := 5, cancelledDuringSleep := true },
            { env := fun _ => .ok [] }], none, []⟩
    ∧ ((monitor { backends := [{ name := "a" }] }
        ⟨[{ env := fun _ => .error ("down"), draw := 5, cancelledDuringSleep := true }],
         none, []⟩).2.countP
          (fun x => match x with | Action.processCall _ => true | _ => false) = 1) :=
  ⟨(monitor_cancel_during_sleep_no_retry { backends := [{ name := "a" }] }
      { env := fun _ => .error ("down"), draw := 5, cancelledDuringSleep := true }
      [] [{ env := fun _ => .ok [] }] none []
      (.backendError ⟨"a", "setVars failed: " ++ ("getValues failed: " ++ "down")⟩)
      (by rfl) (by rfl)).1,
   (monitor_cancel_during_sleep_no_retry { backends := [{ name := "a" }] }
      { env := fun _ => .error ("down"), draw := 5, cancelledDuringSleep := true }
      [] [{ env := fun _ => .ok [] }] none []
      (.backendError ⟨"a", "setVars failed: " ++ ("getValues failed: " ++ "down")⟩)
      (by rfl) (by rfl)).2.1⟩

/-- Witness for the C7 theorem: after a successful first attempt, a spawn
failure sets `Failed`, logs and cancels, and the result ignores the
steady-state events. -/
theorem monitor_spawn_failure_sets_failed_and_cancels_witness :
    (monitor { backends := [{ name := "a" }] }
        ⟨[{ env := fun _ => .ok [] }], some ("spawnboom"), []⟩).1.failed = true
    ∧ Action.cancel ∈ (monitor { backends := [{ name := "a" }] }
        ⟨[{ env := fun _ => .ok [] }], some ("spawnboom"), []⟩).2
    ∧ monitor { backends := [{ name := "a" }] }
        ⟨[{ env := fun _ => .ok [] }], some ("spawnboom"), []⟩
      = monitor { backends := [{ name := "a" }] }
          ⟨[{ env := fun _ => .ok [] }], some ("spawnboom"),
           [{ backendIdx := 0, env := fun _ => .ok [] }]⟩ :=
  ⟨(monitor_spawn_failure_sets_failed_and_cancels { backends := [{ name := "a" }] }
      [{ env := fun _ => .ok [] }] ("spawnboom") []
      [{ backendIdx := 0, env := fun _ => .ok [] }] false (by rfl)).1,
   (monitor_spawn_failure_sets_failed_and_cancels { backends := [{ name := "a" }] }
      [{ env := fun _ => .ok [] }] ("spawnboom") []
      [{ backendIdx := 0, env := fun _ => .ok [] }] false (by rfl)).2.2.1,
   (monitor_spawn_failure_sets_failed_and_cancels { backends := [{ name := "a" }] }
      [{ env := fun _ => .ok [] }] ("spawnboom") []
      [{ backendIdx := 0, env := fun _ => .ok [] }] false (by rfl)).2.2.2.1⟩

end Remco
